import Mathlib

/-!
Shallow embedding of the `@cloud-copilot/cli` argument-parsing engine
(`src/cli.ts` and `src/arguments/*.ts`).

JavaScript objects (`Record<string, T>`) are modelled as association lists
that preserve insertion order, matching the iteration order of string-keyed
JS objects.  `process.exit` (via `exit(code, message)` in `utils.ts`) is
modelled as the error branch of `Except`: once `exit` is called nothing
else runs.  String case conversions are modelled for ASCII, which is the
range the source's regular expressions (`[a-z0-9]`, `[A-Z]`) operate on.
-/

set_option autoImplicit false

namespace CloudCopilotCli

/-- Result of calling the modelled `exit(code, message)` primitive. -/
structure ExitCall where
  code : Nat
  message : Option String
deriving DecidableEq, Repr

/-- Universe of runtime values an argument can hold in the model:
`undefined`, booleans, strings and string arrays. -/
inductive Value where
  | undef : Value
  | bool (b : Bool) : Value
  | str (s : String) : Value
  | strList (xs : List String) : Value
deriving DecidableEq, Repr

/-- Model of `ValidatedValues<T>` from `arguments/argument.ts`. -/
inductive Validated where
  | valid (value : Value) : Validated
  | invalid (message : String) : Validated
deriving DecidableEq, Repr

section JsObjects

variable {κ : Type} {α : Type} [DecidableEq κ]

/-- Property read `obj[key]` on a JS object modelled as an assoc list. -/
def jsGet : List (κ × α) → κ → Option α
  | [], _ => none
  | (k, v) :: rest, key => if k = key then some v else jsGet rest key

/-- Model of `Object.hasOwn(obj, key)`. -/
def jsHasOwn : List (κ × α) → κ → Bool
  | [], _ => false
  | (k, _) :: rest, key => if k = key then true else jsHasOwn rest key

/-- Property write `obj[key] = v`: updates the existing entry in place
(keeping its position, as JS does) or appends a new entry. -/
def jsSet : List (κ × α) → κ → α → List (κ × α)
  | [], key, v => [(key, v)]
  | (k, w) :: rest, key, v =>
    if k = key then (k, v) :: rest else (k, w) :: jsSet rest key v

end JsObjects

/-- Object spread `{...o1, ...o2, ...}`: later objects overwrite earlier keys. -/
def jsSpread (objs : List (List (String × Value))) : List (String × Value) :=
  objs.foldl (fun acc obj => obj.foldl (fun a kv => jsSet a kv.1 kv.2) acc) []

/-- ASCII lower-casing of a character, as `String.prototype.toLowerCase`
behaves on the ASCII range. -/
def lowerAscii (c : Char) : Char :=
  if 65 ≤ c.toNat ∧ c.toNat ≤ 90 then Char.ofNat (c.toNat + 32) else c

/-- ASCII upper-casing of a character, as `String.prototype.toUpperCase`
behaves on the ASCII range. -/
def upperAscii (c : Char) : Char :=
  if 97 ≤ c.toNat ∧ c.toNat ≤ 122 then Char.ofNat (c.toNat - 32) else c

/-- Model of `s.toLowerCase()` (ASCII). -/
def jsToLower (s : String) : String := String.mk (s.data.map lowerAscii)

/-- Model of `s.toUpperCase()` (ASCII). -/
def jsToUpper (s : String) : String := String.mk (s.data.map upperAscii)

/-- Model of `s.startsWith(pre)`. -/
def jsStartsWith (s pre : String) : Bool := pre.data.isPrefixOf s.data

/-- Model of `s.replaceAll(Chr, Empty)` for a single character: every
occurrence of the character is removed. -/
def removeChar (c : Char) (s : String) : String :=
  String.mk (s.data.filter (fun d => d ≠ c))

/-- Does the character match the regex class `[a-z0-9]`? -/
def isLowerDigitChar (c : Char) : Bool :=
  (97 ≤ c.toNat ∧ c.toNat ≤ 122) ∨ (48 ≤ c.toNat ∧ c.toNat ≤ 57)

/-- Does the character match the regex class `[A-Z]`? -/
def isUpperChar (c : Char) : Bool :=
  65 ≤ c.toNat ∧ c.toNat ≤ 90

/-- Global replacement of `/([a-z0-9])([A-Z])/g` with `$1<sep>$2`:
a left-to-right, non-overlapping scan inserting the separator at each
lower-or-digit to upper transition. -/
def sepCamel (sep : Char) : List Char → List Char
  | [] => []
  | [a] => [a]
  | a :: b :: rest =>
    if isLowerDigitChar a ∧ isUpperChar b then a :: sep :: b :: sepCamel sep rest
    else a :: sepCamel sep (b :: rest)

/-- Model of `camelToCapitalSnakeCase` from `cli.ts`. -/
def camelToCapitalSnakeCase (input : String) : String :=
  String.mk ((sepCamel '_' input.data).map upperAscii)

/-- Model of `camelToKebabCase` from `cli.ts`. -/
def camelToKebabCase (input : String) : String :=
  String.mk ((sepCamel '-' input.data).map lowerAscii)

/-- Helper for `jsSplitOnSpace`: accumulates the current token (reversed). -/
def splitSpaceAux : List Char → List Char → List String
  | [], acc => [String.mk acc.reverse]
  | c :: cs, acc =>
    if c = ' ' then String.mk acc.reverse :: splitSpaceAux cs []
    else splitSpaceAux cs (c :: acc)

/-- Model of `value.split(Chr)` with a single-space separator; always
returns at least one (possibly empty) token, as in JS. -/
def jsSplitOnSpace (s : String) : List String := splitSpaceAux s.data []

/-- Model of `Argument<T>` from `arguments/argument.ts`.  The third
parameter of `validateValues`/`reduceValues` is the `isCurrentlyDefaulted`
flag the orchestrator passes; the built-in argument types ignore it. -/
structure Argument where
  defaultValue : Value
  validateValues : Value → List String → Bool → Validated
  reduceValues : Value → Value → Bool → Value
  present : Option (Value → Value) := none
  acceptMultipleValues : Bool := false
  character : Option Char := none

/-- Model of `booleanArgument` from `arguments/booleanArgument.ts`. -/
def booleanArgument (c : Char) : Argument where
  defaultValue := Value.bool false
  character := some c
  present := some (fun _ => Value.bool true)
  validateValues := fun _ values _ =>
    match values with
    | [] => Validated.valid (Value.bool true)
    | _ => Validated.invalid ("does not accept values but received " ++ String.intercalate ", " values)
  reduceValues := fun current _ _ => current

/-- Model of the generic `singleValueArgument` factory from
`arguments/singleValueArgument.ts`, specialised to the `Value` universe. -/
def singleValueArgument (validator : String → Validated) (dflt : Value) : Argument where
  defaultValue := dflt
  validateValues := fun currentValue values _ =>
    if currentValue ≠ Value.undef ∧ currentValue ≠ dflt then
      Validated.invalid "expects a single values but was set multiple times"
    else
      match values with
      | [] => Validated.invalid "a value is required"
      | [v] => validator v
      | _ => Validated.invalid ("expects a single value but received " ++ String.intercalate ", " values)
  reduceValues := fun _ newValue _ => newValue

/-- Model of `stringArgument` from `arguments/stringArguments.ts`. -/
def stringArgument (dflt : Value) : Argument :=
  singleValueArgument (fun s => Validated.valid (Value.str s)) dflt

/-- Model of `enumArgument.validateValues` lookup against the configured
valid values (case-insensitive, first match wins). -/
def enumFind (validValues : List String) (v : String) : Option String :=
  validValues.find? (fun u => jsToLower u = jsToLower v)

/-- Model of `enumArgument` from `arguments/enumArgument.ts`. -/
def enumArgument (validValues : List String) (dflt : Value) : Argument where
  defaultValue := dflt
  validateValues := fun currentValue values _ =>
    match values with
    | [] => Validated.invalid "a value is required"
    | v :: vs =>
      if currentValue ≠ dflt then
        Validated.invalid "expects a single value but was set multiple times"
      else
        match vs with
        | [] =>
          match enumFind validValues v with
          | some m => Validated.valid (Value.str m)
          | none =>
            Validated.invalid
              (v ++ " is not one of the allowed values: " ++ String.intercalate ", " validValues)
        | _ =>
          Validated.invalid
            ("expects a single value but received " ++ String.intercalate ", " (v :: vs))
  reduceValues := fun _ newValue _ => newValue

/-- The in-order scan of `enumArrayArgument.validateValues`: returns the
invalid raw tokens and the canonicalised valid tokens, both in input order. -/
def enumArrayScan (validValues : List String) : List String → List String × List String
  | [] => ([], [])
  | v :: vs =>
    let tail := enumArrayScan validValues vs
    match enumFind validValues v with
    | some m => (tail.1, m :: tail.2)
    | none => (v :: tail.1, tail.2)

/-- Model of `enumArrayArgument` from `arguments/enumArrayArgument.ts`. -/
def enumArrayArgument (validValues : List String) (dflt : Value) : Argument where
  defaultValue := dflt
  acceptMultipleValues := true
  validateValues := fun _ values _ =>
    match values with
    | [] => Validated.invalid "At least one value is required"
    | _ =>
      let scan := enumArrayScan validValues values
      if scan.1 ≠ [] then
        Validated.invalid
          (String.intercalate ", " scan.1 ++ " is not one of the allowed values: " ++
            String.intercalate ", " validValues)
      else Validated.valid (Value.strList scan.2)
  reduceValues := fun current newValues _ =>
    match current, newValues with
    | Value.undef, v => v
    | Value.strList xs, Value.strList ys => Value.strList (xs ++ ys)
    | c, _ => c

/-- The per-token loop of `arrayValueArgument.validateValues`: the first
invalid token's message short-circuits. -/
def arrayValidateAll (validator : String → Except String String) : List String → Except String (List String)
  | [] => Except.ok []
  | v :: vs =>
    match validator v with
    | Except.error m => Except.error m
    | Except.ok value =>
      match arrayValidateAll validator vs with
      | Except.error m => Except.error m
      | Except.ok rest => Except.ok (value :: rest)

/-- Model of the generic `arrayValueArgument` factory from
`arguments/arrayValueArgument.ts`, specialised to string payloads. -/
def arrayValueArgument (validator : String → Except String String) (dflt : Value) : Argument where
  defaultValue := dflt
  acceptMultipleValues := true
  validateValues := fun _ values _ =>
    match values with
    | [] => Validated.invalid "at least one value is required"
    | _ =>
      match arrayValidateAll validator values with
      | Except.error m => Validated.invalid m
      | Except.ok vs => Validated.valid (Value.strList vs)
  reduceValues := fun current newValues _ =>
    match current, newValues with
    | Value.undef, v => v
    | Value.strList xs, Value.strList ys => Value.strList (xs ++ ys)
    | c, _ => c

/-- Model of `stringArrayArgument` from `arguments/stringArguments.ts`. -/
def stringArrayArgument (dflt : Value) : Argument :=
  arrayValueArgument (fun s => Except.ok s) dflt

/-- Model of the internal `ArgumentChunk` record of `cli.ts`. -/
structure ArgumentChunk where
  first : String
  rest : List String
  isFirst : Bool
  isLast : Bool
deriving DecidableEq, Repr

/-- Model of the `grouped.push` sites guarded by `currentChunk.length > 0`:
flushes the accumulated chunk, marking `isFirst` from the current number of
grouped chunks. -/
def flushChunk (grouped : List ArgumentChunk) (currentChunk : List String) (isLast : Bool) :
    List ArgumentChunk :=
  match currentChunk with
  | [] => grouped
  | f :: rest => grouped ++ [⟨f, rest, grouped.isEmpty, isLast⟩]

/-- The scanning loop of `groupArguments`.  On the literal token `--` the
source pushes the terminal chunk and `break`s, after which the loop
epilogue flushes any still-accumulated chunk. -/
def groupLoop : List String → List String → List ArgumentChunk → List ArgumentChunk
  | [], currentChunk, grouped => flushChunk grouped currentChunk true
  | arg :: restArgs, currentChunk, grouped =>
    if arg = "--" then
      flushChunk (grouped ++ [⟨arg, restArgs, grouped.isEmpty, true⟩]) currentChunk true
    else if jsStartsWith arg "-" ∧ ¬ currentChunk.isEmpty then
      groupLoop restArgs [arg] (flushChunk grouped currentChunk false)
    else
      groupLoop restArgs (currentChunk ++ [arg]) grouped

/-- Model of `groupArguments` from `cli.ts`. -/
def groupArguments (args : List String) : List ArgumentChunk :=
  groupLoop args [] []

/-- Model of a `Subcommand` from `cli.ts` (the description plays no role
in parsing). -/
structure Subcommand where
  arguments : List (String × Argument)

/-- The subset of `AdditionalCliOptions` from `cli.ts` observable by the
parsing engine.  `expectOperands` is an `Option` because the source
distinguishes an absent key (`Object.hasOwn`) from an explicit value;
`version` records whether any version configuration was supplied. -/
structure AdditionalCliOptions where
  args : List String := []
  env : List (String × String) := []
  envPrefix : Option String := none
  version : Bool := false
  requireSubcommand : Bool := false
  showHelpIfNoArgs : Bool := false
  expectOperands : Option Bool := none

/-- Model of the parse result assembled at the end of `parseCliArguments`
(minus the `printHelp` callback, which is pure I/O). -/
structure ParseResult where
  args : List (String × Value)
  operands : List String
  subcommand : Option String
  anyValues : Bool
deriving DecidableEq, Repr

/-- An effectful left fold over a list, short-circuiting on `exit`. -/
def foldListM {α β : Type} (f : α → β → Except ExitCall α) : α → List β → Except ExitCall α
  | acc, [] => Except.ok acc
  | acc, b :: bs =>
    match f acc b with
    | Except.error e => Except.error e
    | Except.ok acc2 => foldListM f acc2 bs

/-- Model of `initializeDefault` from `cli.ts`: seed the key's declared
default unless the key was already assigned. -/
def initDefault (parsedArgs : List (String × Value)) (cliArguments : List (String × Argument))
    (key : String) : List (String × Value) :=
  if jsHasOwn parsedArgs key then parsedArgs
  else
    match jsGet cliArguments key with
    | some cfg => jsSet parsedArgs key cfg.defaultValue
    | none => parsedArgs

/-- Model of `initializeOptionDefaults` from `cli.ts`: seed every declared
default and register every single-character alias (lower-cased). -/
def initOptionDefaults (parsedArgs : List (String × Value)) (booleanOptions : List (Char × String))
    (cliArguments : List (String × Argument)) :
    List (String × Value) × List (Char × String) :=
  cliArguments.foldl
    (fun acc kv =>
      (jsSet acc.1 kv.1 kv.2.defaultValue,
        match kv.2.character with
        | some c => jsSet acc.2 (lowerAscii c) kv.1
        | none => acc.2))
    (parsedArgs, booleanOptions)

/-- One iteration of the `Object.entries(env)` loop inside
`parseEnvironmentVariables`. -/
def envEntryStep (cliArguments : List (String × Argument)) (envToKeys : List (String × String))
    (pfx : String) (acc : List (String × Value) × List (String × Bool)) (entry : String × String) :
    Except ExitCall (List (String × Value) × List (String × Bool)) :=
  if jsStartsWith entry.1 pfx then
    let optionKey := String.mk (entry.1.data.drop pfx.data.length)
    match jsGet envToKeys optionKey with
    | none => Except.ok acc
    | some option =>
      match jsGet cliArguments option with
      | none => Except.ok acc
      | some config =>
        let parsedArgs := initDefault acc.1 cliArguments option
        let parsedArgs :=
          match config.present with
          | some f => jsSet parsedArgs option (f ((jsGet parsedArgs option).getD Value.undef))
          | none => parsedArgs
        if config.character.isSome then Except.ok (parsedArgs, acc.2)
        else
          let values := jsSplitOnSpace entry.2
          let current := (jsGet parsedArgs option).getD Value.undef
          match config.validateValues current values ((jsGet acc.2 option).isNone) with
          | Validated.invalid msg =>
            let plural := if values.length > 1 then "s" else ""
            Except.error ⟨2, some ("Invalid value" ++ plural ++ " for environment " ++ entry.1 ++ ": " ++ msg)⟩
          | Validated.valid v =>
            Except.ok
              (jsSet parsedArgs option (config.reduceValues current v ((jsGet acc.2 option).isNone)),
                jsSet acc.2 option true)
  else Except.ok acc

/-- Model of `parseEnvironmentVariables` from `cli.ts`.  Returns the
updated environment-seeded values and the updated occurrence map. -/
def parseEnvironmentVariables (cliArguments : List (String × Argument))
    (parsedArgs : List (String × Value)) (env : List (String × String))
    (envPrefix : Option String) (valuesSetByCli : List (String × Bool)) :
    Except ExitCall (List (String × Value) × List (String × Bool)) :=
  match envPrefix with
  | none => Except.ok (parsedArgs, valuesSetByCli)
  | some p =>
    let pfx := p ++ "_"
    let envToKeys :=
      cliArguments.foldl (fun acc kv => jsSet acc (camelToCapitalSnakeCase kv.1) kv.1) []
    foldListM (envEntryStep cliArguments envToKeys pfx) (parsedArgs, valuesSetByCli) env

/-- The mutable locals of `parseCliArguments` threaded through the chunk
loop. -/
structure ParseState where
  parsedArgs : List (String × Value)
  operands : List String
  booleanOptions : List (Char × String)
  combinedOptions : List (String × Argument)
  subcommand : Option String
  allDefaults : List (String × Value)
  parsedEnvironmentArgs : List (String × Value)
  isSetByCli : List (String × Bool)

/-- The short-option loop (`for (const char of first.slice(1))`). -/
def setShortFlags : ParseState → List Char → Except ExitCall ParseState
  | st, [] => Except.ok st
  | st, c :: cs =>
    match jsGet st.booleanOptions c with
    | none => Except.error ⟨2, some ("Unknown flag: -" ++ String.mk [c])⟩
    | some key =>
      setShortFlags { st with parsedArgs := jsSet st.parsedArgs key (Value.bool true) } cs

/-- The first-chunk bare-word block of the chunk loop: operand capture
when no subcommands exist, otherwise subcommand resolution and scope
merging. -/
def bareFirstStep (subcommands : List (String × Subcommand)) (opts : AdditionalCliOptions)
    (st : ParseState) (chunk : ArgumentChunk) : Except ExitCall ParseState :=
  if chunk.isFirst ∧ ¬ jsStartsWith chunk.first "-" then
    if subcommands.length = 0 then
      if chunk.isLast then
        Except.ok { st with operands := st.operands ++ chunk.first :: chunk.rest }
      else
        Except.error ⟨2, some ("Invalid: " ++ chunk.first ++ ", all arguments must specified using a --argument")⟩
    else
      if ¬ chunk.isLast ∧ chunk.rest ≠ [] then
        Except.error ⟨2, some ("Arguments must be specified using a --argument, " ++
          String.intercalate " " chunk.rest ++ " is ambiguous")⟩
      else
        let matchingCommands :=
          (subcommands.map Prod.fst).filter
            (fun cmd => jsStartsWith (jsToLower cmd) (jsToLower chunk.first))
        match matchingCommands with
        | [] => Except.error ⟨2, some ("Unknown command: " ++ chunk.first)⟩
        | [cmd] =>
          match jsGet subcommands cmd with
          | none => Except.ok st
          | some sub =>
            let seeded := initOptionDefaults st.allDefaults st.booleanOptions sub.arguments
            match parseEnvironmentVariables sub.arguments st.parsedEnvironmentArgs opts.env
                opts.envPrefix st.isSetByCli with
            | Except.error e => Except.error e
            | Except.ok (envArgs, setByCli) =>
              let combined :=
                sub.arguments.foldl (fun acc kv => jsSet acc kv.1 kv.2) st.combinedOptions
              Except.ok { st with
                subcommand := some cmd
                allDefaults := seeded.1
                booleanOptions := seeded.2
                parsedEnvironmentArgs := envArgs
                isSetByCli := setByCli
                combinedOptions := combined
                operands := st.operands ++ chunk.rest }
        | _ => Except.error ⟨2, some ("Ambiguous command: " ++ chunk.first)⟩
  else Except.ok st

/-- Resolution of a `--argument` head against the merged option names:
unique prefix match, exact-match tie-break among multiple matches, and
the `--help`/`--version` fallbacks on zero matches. -/
def resolveOption (optionKeys : List String) (key : String) (first : String) (version : Bool) :
    Except ExitCall String :=
  match optionKeys.filter (fun k => jsStartsWith (jsToLower k) key) with
  | [k] => Except.ok k
  | [] =>
    if jsStartsWith "--help" first then Except.error ⟨0, none⟩
    else if jsStartsWith "--version" first ∧ version then Except.error ⟨0, none⟩
    else Except.error ⟨2, some ("Unknown argument: " ++ first)⟩
  | matches2 =>
    match matches2.find? (fun k => jsToLower k = key) with
    | some k => Except.ok k
    | none => Except.error ⟨2, some ("Ambiguous argument: " ++ first)⟩

/-- The `first.startsWith(Dashes)` branch of the chunk loop: resolve the
argument, seed its default, run `present`, enforce the no-value rule for
character arguments, truncate-and-spill for single-value arguments in a
final chunk, then `validateValues`/`reduceValues`. -/
def doubleDashStep (opts : AdditionalCliOptions) (expectOperands : Bool) (st : ParseState)
    (chunk : ArgumentChunk) : Except ExitCall ParseState :=
  let first := chunk.first
  let rest := chunk.rest
  let key := jsToLower (removeChar '-' (String.mk (first.data.drop 2)))
  match resolveOption (st.combinedOptions.map Prod.fst) key first opts.version with
  | Except.error e => Except.error e
  | Except.ok selectedArgument =>
    let fullArgumentName := "--" ++ camelToKebabCase selectedArgument
    match jsGet st.combinedOptions selectedArgument with
    | none => Except.ok st
    | some optionConfig =>
      let parsedArgs := initDefault st.parsedArgs st.combinedOptions selectedArgument
      let parsedArgs :=
        match optionConfig.present with
        | some f =>
          jsSet parsedArgs selectedArgument (f ((jsGet parsedArgs selectedArgument).getD Value.undef))
        | none => parsedArgs
      if rest ≠ [] ∧ optionConfig.character.isSome then
        if ¬ chunk.isLast then
          Except.error ⟨2, some ("Validation error for " ++ fullArgumentName ++
            ": does not accept values but received " ++ String.intercalate ", " rest)⟩
        else if ¬ expectOperands then
          Except.error ⟨2, some ("Validation error for " ++ fullArgumentName ++
            ": does not accept values but received " ++ String.intercalate ", " rest)⟩
        else
          Except.ok { st with parsedArgs := parsedArgs, operands := st.operands ++ rest }
      else
        let truncate :=
          ¬ optionConfig.acceptMultipleValues ∧ rest.length > 1 ∧ chunk.isLast ∧ expectOperands
        let theRest := if truncate then rest.take 1 else rest
        let extraOperands := if truncate then rest.drop 1 else []
        let currentValue := (jsGet parsedArgs selectedArgument).getD Value.undef
        let firstOccurrence := (jsGet st.isSetByCli selectedArgument).isNone
        match optionConfig.validateValues currentValue theRest firstOccurrence with
        | Validated.invalid msg =>
          Except.error ⟨2, some ("Validation error for " ++ fullArgumentName ++ ": " ++ msg)⟩
        | Validated.valid v =>
          Except.ok { st with
            parsedArgs :=
              jsSet parsedArgs selectedArgument (optionConfig.reduceValues currentValue v firstOccurrence)
            operands := st.operands ++ extraOperands
            isSetByCli := jsSet st.isSetByCli selectedArgument true }

/-- The `first.startsWith(Dash)` branch of the chunk loop: value policing
then the short-option loop. -/
def singleDashStep (expectOperands : Bool) (st : ParseState) (chunk : ArgumentChunk) :
    Except ExitCall ParseState :=
  let first := chunk.first
  let rest := chunk.rest
  let policed : Except ExitCall ParseState :=
    if rest ≠ [] ∧ ¬ chunk.isLast then
      Except.error ⟨2, some ("Boolean flag(s) " ++ first ++ " should not have values but received " ++
        String.intercalate ", " rest)⟩
    else if chunk.isLast ∧ rest ≠ [] then
      if ¬ expectOperands then
        Except.error ⟨2, some ("Boolean flag(s) " ++ first ++ " should not have values but received " ++
          String.intercalate ", " rest)⟩
      else Except.ok { st with operands := st.operands ++ rest }
    else Except.ok st
  match policed with
  | Except.error e => Except.error e
  | Except.ok st2 => setShortFlags st2 (first.data.drop 1)

/-- The body of the `for (const {first, rest, isLast, isFirst} of
commandChunks)` loop in `parseCliArguments`. -/
def parseChunk (subcommands : List (String × Subcommand)) (opts : AdditionalCliOptions)
    (expectOperands : Bool) (st : ParseState) (chunk : ArgumentChunk) :
    Except ExitCall ParseState :=
  if chunk.first = "--help" then Except.error ⟨0, none⟩
  else if chunk.first = "--version" ∧ opts.version then Except.error ⟨0, none⟩
  else
    match bareFirstStep subcommands opts st chunk with
    | Except.error e => Except.error e
    | Except.ok st1 =>
      if chunk.first = "--" then
        if ¬ expectOperands then
          Except.error ⟨2, some "Operands are not expected but '--' separator was used"⟩
        else Except.ok { st1 with operands := st1.operands ++ chunk.rest }
      else if jsStartsWith chunk.first "--" then
        doubleDashStep opts expectOperands st1 chunk
      else if jsStartsWith chunk.first "-" then
        singleDashStep expectOperands st1 chunk
      else Except.ok st1

/-- Model of `parseCliArguments` from `cli.ts`: defaults, environment
seeding, chunking, the per-chunk loop, the terminal checks and the result
assembly `{...allDefaults, ...parsedEnvironmentArgs, ...parsedArgs}`. -/
def parseCliArguments (subcommands : List (String × Subcommand))
    (cliArgs : List (String × Argument)) (opts : AdditionalCliOptions) :
    Except ExitCall ParseResult :=
  let args := opts.args
  let expectOperands := opts.expectOperands.getD true
  if args = [] ∧ opts.showHelpIfNoArgs then Except.error ⟨0, none⟩
  else
    let seeded := initOptionDefaults [] [] cliArgs
    match parseEnvironmentVariables cliArgs [] opts.env opts.envPrefix [] with
    | Except.error e => Except.error e
    | Except.ok (parsedEnvironmentArgs, isSetByCli) =>
      let st0 : ParseState :=
        { parsedArgs := []
          operands := []
          booleanOptions := seeded.2
          combinedOptions := cliArgs
          subcommand := none
          allDefaults := seeded.1
          parsedEnvironmentArgs := parsedEnvironmentArgs
          isSetByCli := isSetByCli }
      match foldListM (parseChunk subcommands opts expectOperands) st0 (groupArguments args) with
      | Except.error e => Except.error e
      | Except.ok st =>
        if subcommands.length > 0 ∧ opts.requireSubcommand ∧ st.subcommand = none then
          Except.error ⟨2, some "A subcommand is required"⟩
        else if ¬ expectOperands ∧ st.operands ≠ [] then
          Except.error ⟨2, some ("Operands are not expected but received: " ++
            String.intercalate ", " st.operands)⟩
        else
          Except.ok
            { args := jsSpread [st.allDefaults, st.parsedEnvironmentArgs, st.parsedArgs]
              operands := if expectOperands then st.operands else []
              subcommand := st.subcommand
              anyValues := args.length > 0 }


/-- Replace every dash by an underscore (spec-side construction for C9). -/
def dashToUnderChar (c : Char) : Char := if c = '-' then '_' else c

/-- Replace every dash in a string by an underscore. -/
def dashToUnderscore (s : String) : String := String.mk (s.data.map dashToUnderChar)

theorem upperAscii_dashToUnderChar_lowerAscii (c : Char)
    (h : isLowerDigitChar c = true ∨ isUpperChar c = true) :
    upperAscii (dashToUnderChar (lowerAscii c)) = upperAscii (dashToUnderChar c) := by
  have hc := Char.ofNat_toNat c
  have hb : (48 ≤ c.toNat ∧ c.toNat ≤ 57) ∨ (65 ≤ c.toNat ∧ c.toNat ≤ 90) ∨
      (97 ≤ c.toNat ∧ c.toNat ≤ 122) := by
    rcases h with h | h <;> simp [isLowerDigitChar, isUpperChar] at h <;> omega
  have h1 : 48 ≤ c.toNat := by omega
  have h2 : c.toNat ≤ 122 := by omega
  rw [← hc]
  generalize c.toNat = n at h1 h2
  interval_cases n <;> decide

theorem mem_sepCamel (sep : Char) (l : List Char) (c : Char) (hc : c ∈ sepCamel sep l) :
    c ∈ l ∨ c = sep := by
  induction l using sepCamel.induct sep with
  | case1 => simp [sepCamel] at hc
  | case2 a =>
    simp [sepCamel] at hc
    simp [hc]
  | case3 a b rest h ih =>
    rw [sepCamel, if_pos h] at hc
    simp at hc
    rcases hc with hc | hc | hc | hc
    · simp [hc]
    · simp [hc]
    · simp [hc]
    · rcases ih hc with h | h
      · exact Or.inl (by simp [h])
      · exact Or.inr h
  | case4 a b rest h ih =>
    rw [sepCamel, if_neg h] at hc
    simp at hc
    rcases hc with hc | hc
    · simp [hc]
    · rcases ih hc with h | h
      · exact Or.inl (by simp [h])
      · exact Or.inr h

theorem sepCamel_underscore_eq_map (l : List Char) (hl : ∀ c ∈ l, c ≠ '-') :
    sepCamel '_' l = (sepCamel '-' l).map dashToUnderChar := by
  induction l using sepCamel.induct '-' with
  | case1 => simp [sepCamel]
  | case2 a =>
    have ha : a ≠ '-' := hl a (by simp)
    simp [sepCamel, dashToUnderChar, ha]
  | case3 a b rest h ih =>
    have ha : a ≠ '-' := hl a (by simp)
    have hb : b ≠ '-' := hl b (by simp)
    rw [sepCamel, if_pos h, sepCamel, if_pos h]
    simp [dashToUnderChar, ha, hb]
    exact ih (fun c hc => hl c (by simp [hc]))
  | case4 a b rest h ih =>
    have ha : a ≠ '-' := hl a (by simp)
    rw [sepCamel, if_neg h, sepCamel, if_neg h]
    simp [dashToUnderChar, ha]
    exact ih (fun c hc => hl c (by simp [hc]))

/-- C9: the environment-variable-form and dash-form conversions insert
separators at the same places: on ASCII alphanumeric input,
`camelToCapitalSnakeCase` equals `camelToKebabCase` with dashes replaced
by underscores and the result upper-cased. -/
theorem camel_conversions_same_boundaries (s : String)
    (h : ∀ c ∈ s.data, isLowerDigitChar c = true ∨ isUpperChar c = true) :
    camelToCapitalSnakeCase s = jsToUpper (dashToUnderscore (camelToKebabCase s)) := by
  have hnd : ∀ c ∈ s.data, c ≠ '-' := by
    intro c hc he
    rcases h c hc with h' | h' <;> rw [he] at h' <;> exact absurd h' (by decide)
  rw [camelToCapitalSnakeCase, camelToKebabCase, dashToUnderscore, jsToUpper]
  rw [sepCamel_underscore_eq_map s.data hnd]
  simp only [List.map_map]
  apply congrArg String.mk
  apply List.map_congr_left
  intro c hc
  rcases mem_sepCamel '-' s.data c hc with hmem | hsep
  · rcases h c hmem with h' | h'
    · exact (upperAscii_dashToUnderChar_lowerAscii c (Or.inl h')).symm
    · exact (upperAscii_dashToUnderChar_lowerAscii c (Or.inr h')).symm
  · subst hsep; decide


theorem groupLoop_no_dash (vs : List String) :
    ∀ (c : List String) (g : List ArgumentChunk),
      (∀ v ∈ vs, jsStartsWith v "-" = false) →
      groupLoop vs c g = flushChunk g (c ++ vs) true := by
  induction vs with
  | nil => intro c g _; simp [groupLoop]
  | cons v vs ih =>
    intro c g h
    have hv : jsStartsWith v "-" = false := h v (by simp)
    have hne : v ≠ "--" := by
      intro he; rw [he] at hv; exact absurd hv (by decide)
    rw [groupLoop, if_neg hne]
    rw [if_neg (by simp [hv])]
    rw [ih (c ++ [v]) g (fun u hu => h u (by simp [hu]))]
    simp

theorem groupArguments_flag_chunk (flag : String) (vs : List String)
    (hflag : flag ≠ "--")
    (h : ∀ v ∈ vs, jsStartsWith v "-" = false) :
    groupArguments (flag :: vs) = [⟨flag, vs, true, true⟩] := by
  rw [groupArguments, groupLoop, if_neg hflag]
  rw [if_neg (by simp)]
  rw [show ([] ++ [flag] : List String) = [flag] by simp]
  rw [groupLoop_no_dash vs [flag] [] h]
  simp [flushChunk]

theorem groupArguments_two_flag_chunks (f1 f2 v1 v2 : String)
    (hf1 : f1 ≠ "--") (hf2 : f2 ≠ "--") (hd2 : jsStartsWith f2 "-" = true)
    (h1 : jsStartsWith v1 "-" = false) (h2 : jsStartsWith v2 "-" = false) :
    groupArguments [f1, v1, f2, v2] =
      [⟨f1, [v1], true, false⟩, ⟨f2, [v2], false, true⟩] := by
  have hne1 : v1 ≠ "--" := by
    intro he; rw [he] at h1; exact absurd h1 (by decide)
  rw [groupArguments, groupLoop, if_neg hf1, if_neg (by simp)]
  rw [groupLoop, if_neg hne1, if_neg (by simp [h1])]
  rw [groupLoop, if_neg hf2, if_pos (by simp [hd2])]
  rw [groupLoop_no_dash [v2] [f2] _ (by intro u hu; simp at hu; subst hu; exact h2)]
  simp [flushChunk]

/-- C1: on `["--foo", "a", "--", "b"]` the source emits the `--` terminal
chunk *before* the still-accumulated `--foo` chunk, marks both as last,
and marks the `--` chunk as first: the `--`-headed chunk is not the last
chunk of the returned sequence. -/
theorem groupArguments_separator_not_last :
    groupArguments ["--foo", "a", "--", "b"] =
      [⟨"--", ["b"], true, true⟩, ⟨"--foo", ["a"], false, true⟩] ∧
    ((groupArguments ["--foo", "a", "--", "b"]).filter (fun c => c.isLast)).length = 2 ∧
    (groupArguments ["--foo", "a", "--", "b"]).getLast?.map ArgumentChunk.first = some "--foo" := by
  refine ⟨by rfl, by rfl, by rfl⟩

theorem enumArrayScan_fst (validValues : List String) (vs : List String) :
    (enumArrayScan validValues vs).1 = vs.filter (fun t => (enumFind validValues t).isNone) := by
  induction vs with
  | nil => simp [enumArrayScan]
  | cons v vs ih =>
    rw [enumArrayScan]
    cases hf : enumFind validValues v <;> simp [hf, ih]

theorem enumArrayScan_snd (validValues : List String) (vs : List String) :
    (enumArrayScan validValues vs).2 = vs.filterMap (enumFind validValues) := by
  induction vs with
  | nil => simp [enumArrayScan]
  | cons v vs ih =>
    rw [enumArrayScan]
    cases hf : enumFind validValues v <;> simp [hf, ih]

/-- C8: an enum value is accepted exactly when it case-insensitively
equals a configured valid value, the stored result is the configured
(original-casing) value (e.g. `BETA` stores `beta`), and an enum-array
argument reports every invalid token, in input order, in one combined
message. -/
theorem enum_case_insensitive_and_array_reports_all :
    (∀ (validValues : List String) (dflt : Value) (v : String) (firstOcc : Bool),
      ((∃ u ∈ validValues, jsToLower u = jsToLower v) ↔
        ∃ m, (enumArgument validValues dflt).validateValues dflt [v] firstOcc =
          Validated.valid (Value.str m)) ∧
      (∀ m, (enumArgument validValues dflt).validateValues dflt [v] firstOcc =
          Validated.valid (Value.str m) → m ∈ validValues ∧ jsToLower m = jsToLower v)) ∧
    ((enumArgument ["alpha", "beta"] Value.undef).validateValues Value.undef ["BETA"] true =
      Validated.valid (Value.str "beta")) ∧
    (∀ (validValues : List String) (cur dflt : Value) (vs : List String) (firstOcc : Bool),
      vs ≠ [] →
      vs.filter (fun t => (enumFind validValues t).isNone) ≠ [] →
      (enumArrayArgument validValues dflt).validateValues cur vs firstOcc =
        Validated.invalid
          (String.intercalate ", " (vs.filter (fun t => (enumFind validValues t).isNone)) ++
            " is not one of the allowed values: " ++ String.intercalate ", " validValues)) := by
  refine ⟨?_, by rfl, ?_⟩
  · intro validValues dflt v firstOcc
    constructor
    · constructor
      · intro hex
        have hsome : (validValues.find? (fun u => jsToLower u = jsToLower v)).isSome := by
          rw [List.find?_isSome]
          rcases hex with ⟨u, hu, he⟩
          exact ⟨u, hu, by simp [he]⟩
        rcases Option.isSome_iff_exists.mp hsome with ⟨m, hm⟩
        refine ⟨m, ?_⟩
        simp [enumArgument, enumFind, hm]
      · rintro ⟨m, hm⟩
        simp only [enumArgument] at hm
        rcases hf : enumFind validValues v with _ | u
        · rw [hf] at hm; simp at hm
        · have := List.find?_some hf
          have hmem := List.mem_of_find?_eq_some hf
          exact ⟨u, hmem, by simpa using this⟩
    · intro m hm
      simp only [enumArgument] at hm
      rcases hf : enumFind validValues v with _ | u
      · rw [hf] at hm; simp at hm
      · rw [hf] at hm
        simp at hm
        subst hm
        have := List.find?_some hf
        have hmem := List.mem_of_find?_eq_some hf
        exact ⟨hmem, by simpa using this⟩
  · intro validValues cur dflt vs firstOcc hvs hinv
    rcases vs with _ | ⟨t, ts⟩
    · exact absurd rfl hvs
    · simp only [enumArrayArgument]
      rw [if_pos (by rw [enumArrayScan_fst]; exact hinv)]
      rw [enumArrayScan_fst]

/-- Witness for the C8 theorem at concrete inputs. -/
theorem enum_case_insensitive_and_array_reports_all_witness :
    (enumArrayArgument ["alpha", "beta"] Value.undef).validateValues Value.undef
      ["ALPHA", "x", "beta", "y"] true =
      Validated.invalid "x, y is not one of the allowed values: alpha, beta" := by
  have h := enum_case_insensitive_and_array_reports_all.2.2 ["alpha", "beta"] Value.undef
    Value.undef ["ALPHA", "x", "beta", "y"] true (by decide) (by decide)
  simpa using h

/-- C2 counterexample: with subcommands `init` and `initAll`, the first
bare token `init` exactly matches `init` (which also prefixes `initAll`),
yet subcommand resolution terminates with an ambiguous-command error
instead of resolving to the exact match. -/
theorem subcommand_exact_match_is_ambiguous :
    parseCliArguments [("init", ⟨[]⟩), ("initAll", ⟨[]⟩)] [] { args := ["init"] } =
      Except.error ⟨2, some "Ambiguous command: init"⟩ := by rfl

/-- C2 amended: only `--argument` resolution applies the exact-match
tie-break (`--resource` with options `resource`/`resourceAccountId`
resolves to `resource`); subcommand resolution reports an ambiguous
command even when the candidate exactly matches one subcommand name that
prefixes another. -/
theorem argument_tiebreak_but_not_subcommands :
    parseCliArguments []
        [("resource", stringArgument Value.undef), ("resourceAccountId", stringArgument Value.undef)]
        { args := ["--resource", "arg1"] } =
      Except.ok ⟨[("resource", Value.str "arg1"), ("resourceAccountId", Value.undef)], [], none, true⟩ ∧
    parseCliArguments [("init", ⟨[]⟩), ("initAll", ⟨[]⟩)] [] { args := ["init", "x"] } =
      Except.error ⟨2, some "Ambiguous command: init"⟩ := by
  exact ⟨by rfl, by rfl⟩

/-- C3 counterexample: with only `{doStuff: booleanArgument('d')}` and
default options, argv `["--do-stuff", "arg1", "arg2"]` parses
successfully — the chunk is last and operands are expected, so the
values spill to operands rather than producing a validation error. -/
theorem boolean_trailing_values_spill :
    parseCliArguments [] [("doStuff", booleanArgument 'd')]
        { args := ["--do-stuff", "arg1", "arg2"] } =
      Except.ok ⟨[("doStuff", Value.bool true)], ["arg1", "arg2"], none, true⟩ := by rfl

/-- C3 amended: under default options the boolean's trailing values spill
to operands (parse succeeds with `doStuff = true`); the validation error
`does not accept values but received arg1, arg2` is produced exactly when
the boolean's chunk is not last, or when operands are not expected. -/
theorem boolean_trailing_values_error_conditions :
    parseCliArguments [] [("doStuff", booleanArgument 'd')]
        { args := ["--do-stuff", "arg1", "arg2"] } =
      Except.ok ⟨[("doStuff", Value.bool true)], ["arg1", "arg2"], none, true⟩ ∧
    parseCliArguments [] [("doStuff", booleanArgument 'd'), ("bazBang", stringArgument Value.undef)]
        { args := ["--do-stuff", "arg1", "arg2", "--baz-bang", "arg3"] } =
      Except.error ⟨2, some "Validation error for --do-stuff: does not accept values but received arg1, arg2"⟩ ∧
    parseCliArguments [] [("doStuff", booleanArgument 'd')]
        { args := ["--do-stuff", "arg1", "arg2"], expectOperands := some false } =
      Except.error ⟨2, some "Validation error for --do-stuff: does not accept values but received arg1, arg2"⟩ := by
  exact ⟨by rfl, by rfl, by rfl⟩

/-- C5: a single-value argument in the final chunk with operand support
keeps one value and spills the excess to operands:
`{fooBar: stringArgument()}` with `["--foo-bar", "arg1", "arg2"]` yields
`fooBar = "arg1"` and operands `["arg2"]`. -/
theorem single_value_truncates_and_spills :
    parseCliArguments [] [("fooBar", stringArgument Value.undef)]
        { args := ["--foo-bar", "arg1", "arg2"] } =
      Except.ok ⟨[("fooBar", Value.str "arg1")], ["arg2"], none, true⟩ := by rfl

theorem arrayValidateAll_ok (V : List String) :
    arrayValidateAll (fun s => Except.ok s) V = Except.ok V := by
  induction V with
  | nil => rfl
  | cons v vs ih => rw [arrayValidateAll, ih]

/-- C10: an array-typed argument with declared default `D` treats the
default as the accumulation seed: one CLI occurrence with raw values `V`
yields `D ++ V`, not `V`. -/
theorem array_default_is_accumulation_seed (D V : List String)
    (hD : D ≠ []) (hV : V ≠ []) (hv : ∀ v ∈ V, jsStartsWith v "-" = false) :
    parseCliArguments [] [("tags", stringArrayArgument (Value.strList D))]
        { args := "--tags" :: V } =
      Except.ok ⟨[("tags", Value.strList (D ++ V))], [], none, true⟩ := by
  have hchunks := groupArguments_flag_chunk "--tags" V (by decide) hv
  rcases V with _ | ⟨v0, vrest⟩
  · exact absurd rfl hV
  have hxa : ("--tags" : String) ≠ "--help" := by decide
  have hxb : ("--tags" : String) ≠ "--version" := by decide
  have hxc : ("--tags" : String) ≠ "--" := by decide
  have hsw1 : jsStartsWith "--tags" "-" = true := by rfl
  have hsw2 : jsStartsWith "--tags" "--" = true := by rfl
  have hkey : jsToLower (removeChar '-' (String.mk ("--tags".data.drop 2))) = "tags" := by rfl
  have hsw3 : jsStartsWith (jsToLower "tags") "tags" = true := by rfl
  simp only [parseCliArguments, hchunks, foldListM, parseChunk, bareFirstStep, doubleDashStep,
    resolveOption, initDefault, initOptionDefaults, parseEnvironmentVariables, jsSpread,
    stringArrayArgument, arrayValueArgument, arrayValidateAll_ok,
    jsGet, jsSet, jsHasOwn, List.foldl, List.filter,
    hxa, hxb, hxc, hsw1, hsw2, hkey, hsw3]
  simp [jsGet, jsSet, jsHasOwn, List.foldl, Option.getD, Option.isNone, jsSpread,
    List.filter_cons, List.filter_nil, hsw3]

/-- C6: a single-value string argument with no default stores the one
supplied value; supplying the flag in two chunks, one value each, always
fails with the set-multiple-times validation error, regardless of the
values. -/
theorem single_value_stores_once_rejects_twice :
    (∀ X : String, jsStartsWith X "-" = false →
      parseCliArguments [] [("name", stringArgument Value.undef)] { args := ["--name", X] } =
        Except.ok ⟨[("name", Value.str X)], [], none, true⟩) ∧
    (∀ v1 v2 : String, jsStartsWith v1 "-" = false → jsStartsWith v2 "-" = false →
      parseCliArguments [] [("name", stringArgument Value.undef)]
          { args := ["--name", v1, "--name", v2] } =
        Except.error ⟨2, some "Validation error for --name: expects a single values but was set multiple times"⟩) := by
  have hxa : ("--name" : String) ≠ "--help" := by decide
  have hxb : ("--name" : String) ≠ "--version" := by decide
  have hxc : ("--name" : String) ≠ "--" := by decide
  have hsw1 : jsStartsWith "--name" "-" = true := by rfl
  have hsw2 : jsStartsWith "--name" "--" = true := by rfl
  have hkey : jsToLower (removeChar '-' (String.mk ("--name".data.drop 2))) = "name" := by rfl
  have hsw3 : jsStartsWith (jsToLower "name") "name" = true := by rfl
  constructor
  · intro X hX
    have hchunks := groupArguments_flag_chunk "--name" [X] (by decide)
      (by intro u hu; simp at hu; subst hu; exact hX)
    simp only [parseCliArguments, hchunks, foldListM, parseChunk, bareFirstStep, doubleDashStep,
      resolveOption, initDefault, initOptionDefaults, parseEnvironmentVariables, jsSpread,
      stringArgument, singleValueArgument,
      jsGet, jsSet, jsHasOwn, List.foldl, List.filter,
      hxa, hxb, hxc, hsw1, hsw2, hkey, hsw3]
    simp [jsGet, jsSet, jsHasOwn, List.foldl, Option.getD, Option.isNone, jsSpread,
      List.filter_cons, List.filter_nil, hsw3]
  · intro v1 v2 h1 h2
    have hchunks := groupArguments_two_flag_chunks "--name" "--name" v1 v2
      (by decide) (by decide) (by rfl) h1 h2
    simp only [parseCliArguments, hchunks, foldListM, parseChunk, bareFirstStep, doubleDashStep,
      resolveOption, initDefault, initOptionDefaults, parseEnvironmentVariables, jsSpread,
      stringArgument, singleValueArgument,
      jsGet, jsSet, jsHasOwn, List.foldl, List.filter,
      hxa, hxb, hxc, hsw1, hsw2, hkey, hsw3]
    simp [jsGet, jsSet, jsHasOwn, List.foldl, Option.getD, Option.isNone, jsSpread,
      List.filter_cons, List.filter_nil, hsw3]
    decide

/-- Witness for the C6 theorem at concrete values. -/
theorem single_value_stores_once_rejects_twice_witness :
    parseCliArguments [] [("name", stringArgument Value.undef)] { args := ["--name", "X"] } =
      Except.ok ⟨[("name", Value.str "X")], [], none, true⟩ ∧
    parseCliArguments [] [("name", stringArgument Value.undef)]
        { args := ["--name", "a", "--name", "b"] } =
      Except.error ⟨2, some "Validation error for --name: expects a single values but was set multiple times"⟩ :=
  ⟨single_value_stores_once_rejects_twice.1 "X" (by rfl),
   single_value_stores_once_rejects_twice.2 "a" "b" (by rfl) (by rfl)⟩

/-- C4: strict precedence CLI token > environment variable > declared
default, shown end-to-end on a configured argument with declared default
`d`: with both a CLI token and an environment value the CLI value wins;
with only the environment value the environment value wins; with neither
the default is returned. -/
theorem cli_env_default_precedence :
    (∀ p e d : String, jsStartsWith p "-" = false → jsSplitOnSpace e = [e] →
      parseCliArguments [] [("port", stringArgument (Value.str d))]
          { args := ["--port", p], envPrefix := some "APP", env := [("APP_PORT", e)] } =
        Except.ok ⟨[("port", Value.str p)], [], none, true⟩) ∧
    (∀ e d : String, jsSplitOnSpace e = [e] →
      parseCliArguments [] [("port", stringArgument (Value.str d))]
          { envPrefix := some "APP", env := [("APP_PORT", e)] } =
        Except.ok ⟨[("port", Value.str e)], [], none, false⟩) ∧
    (∀ d : String,
      parseCliArguments [] [("port", stringArgument (Value.str d))] {} =
        Except.ok ⟨[("port", Value.str d)], [], none, false⟩) := by
  have hxa : ("--port" : String) ≠ "--help" := by decide
  have hxb : ("--port" : String) ≠ "--version" := by decide
  have hxc : ("--port" : String) ≠ "--" := by decide
  have hsw1 : jsStartsWith "--port" "-" = true := by rfl
  have hsw2 : jsStartsWith "--port" "--" = true := by rfl
  have hkey : jsToLower (removeChar '-' (String.mk ("--port".data.drop 2))) = "port" := by rfl
  have hsw3 : jsStartsWith (jsToLower "port") "port" = true := by rfl
  have hpfx : ("APP" ++ "_" : String) = "APP_" := by rfl
  have hswe : jsStartsWith "APP_PORT" "APP_" = true := by rfl
  have hdrop : String.mk ("APP_PORT".data.drop "APP_".data.length) = "PORT" := by rfl
  have hsnake : camelToCapitalSnakeCase "port" = "PORT" := by rfl
  refine ⟨?_, ?_, ?_⟩
  · intro p e d hp hsplit
    have hchunks := groupArguments_flag_chunk "--port" [p] (by decide)
      (by intro u hu; simp at hu; subst hu; exact hp)
    simp only [parseCliArguments, hchunks, foldListM, parseChunk, bareFirstStep, doubleDashStep,
      resolveOption, initDefault, initOptionDefaults, parseEnvironmentVariables, envEntryStep,
      jsSpread, stringArgument, singleValueArgument,
      jsGet, jsSet, jsHasOwn, List.foldl, List.filter,
      hxa, hxb, hxc, hsw1, hsw2, hkey, hsw3, hpfx, hswe, hdrop, hsnake, hsplit]
    simp [jsGet, jsSet, jsHasOwn, List.foldl, Option.getD, Option.isNone, jsSpread,
      List.filter_cons, List.filter_nil, hsw3]
  · intro e d hsplit
    simp only [parseCliArguments, foldListM, parseEnvironmentVariables, envEntryStep,
      initDefault, initOptionDefaults, jsSpread, stringArgument, singleValueArgument,
      jsGet, jsSet, jsHasOwn, List.foldl,
      hpfx, hswe, hdrop, hsnake, hsplit]
    simp [groupArguments, groupLoop, flushChunk, foldListM, jsGet, jsSet, jsHasOwn, List.foldl,
      Option.getD, Option.isNone, jsSpread]
  · intro d
    simp only [parseCliArguments, foldListM, parseEnvironmentVariables, envEntryStep,
      initDefault, initOptionDefaults, jsSpread, stringArgument, singleValueArgument,
      jsGet, jsSet, jsHasOwn, List.foldl]
    simp [groupArguments, groupLoop, flushChunk, foldListM, jsGet, jsSet, jsHasOwn, List.foldl,
      Option.getD, Option.isNone, jsSpread]

/-- Witness for the C4 theorem at concrete values. -/
theorem cli_env_default_precedence_witness :
    parseCliArguments [] [("port", stringArgument (Value.str "3000"))]
        { args := ["--port", "8080"], envPrefix := some "APP", env := [("APP_PORT", "9090")] } =
      Except.ok ⟨[("port", Value.str "8080")], [], none, true⟩ ∧
    parseCliArguments [] [("port", stringArgument (Value.str "3000"))]
        { envPrefix := some "APP", env := [("APP_PORT", "9090")] } =
      Except.ok ⟨[("port", Value.str "9090")], [], none, false⟩ ∧
    parseCliArguments [] [("port", stringArgument (Value.str "3000"))] {} =
      Except.ok ⟨[("port", Value.str "3000")], [], none, false⟩ :=
  ⟨cli_env_default_precedence.1 "8080" "9090" "3000" (by rfl) (by rfl),
   cli_env_default_precedence.2.1 "9090" "3000" (by rfl),
   cli_env_default_precedence.2.2 "3000"⟩

theorem splitSpaceAux_ne_nil (l : List Char) : ∀ acc, splitSpaceAux l acc ≠ [] := by
  induction l with
  | nil => intro acc; simp [splitSpaceAux]
  | cons c cs ih =>
    intro acc
    rw [splitSpaceAux]
    by_cases hc : c = ' '
    · simp [hc]
    · simpa [hc] using ih (c :: acc)

theorem jsSplitOnSpace_ne_nil (s : String) : jsSplitOnSpace s ≠ [] :=
  splitSpaceAux_ne_nil s.data []

theorem enumArrayValidate_invalid (validValues : List String) (dflt cur : Value)
    (vs : List String) (firstOcc : Bool) (hvs : vs ≠ [])
    (hinv : vs.filter (fun t => (enumFind validValues t).isNone) ≠ []) :
    (enumArrayArgument validValues dflt).validateValues cur vs firstOcc =
      Validated.invalid
        (String.intercalate ", " (vs.filter (fun t => (enumFind validValues t).isNone)) ++
          " is not one of the allowed values: " ++ String.intercalate ", " validValues) := by
  rcases vs with _ | ⟨t, ts⟩
  · exact absurd rfl hvs
  · simp only [enumArrayArgument]
    rw [if_pos (by rw [enumArrayScan_fst]; exact hinv)]
    rw [enumArrayScan_fst]

theorem enumArrayValidate_valid (validValues : List String) (dflt cur : Value)
    (vs : List String) (firstOcc : Bool) (hvs : vs ≠ [])
    (hval : vs.filter (fun t => (enumFind validValues t).isNone) = []) :
    (enumArrayArgument validValues dflt).validateValues cur vs firstOcc =
      Validated.valid (Value.strList (vs.filterMap (enumFind validValues))) := by
  rcases vs with _ | ⟨t, ts⟩
  · exact absurd rfl hvs
  · simp only [enumArrayArgument]
    rw [if_neg (by rw [enumArrayScan_fst]; simp [hval])]
    rw [enumArrayScan_snd]

/-- C7: with an environment prefix configured, a boolean (character
alias) argument is seeded `true` by the presence of its variable no
matter the content; any other argument has the content split on spaces
and run through its validate/reduce hooks, a failure exiting with code 2
and the distinct invalid-environment-value message form, a success
storing the reduced value. -/
theorem env_variables_seed_and_validate :
    (∀ content : String,
      parseCliArguments [] [("doStuff", booleanArgument 'd')]
          { envPrefix := some "APP", env := [("APP_DO_STUFF", content)] } =
        Except.ok ⟨[("doStuff", Value.bool true)], [], none, false⟩) ∧
    (∀ content : String,
      (jsSplitOnSpace content).filter (fun t => (enumFind ["alpha", "beta"] t).isNone) ≠ [] →
      parseCliArguments [] [("fooBar", enumArrayArgument ["alpha", "beta"] Value.undef)]
          { envPrefix := some "APP", env := [("APP_FOO_BAR", content)] } =
        Except.error ⟨2, some ("Invalid value" ++
          (if (jsSplitOnSpace content).length > 1 then "s" else "") ++
          " for environment APP_FOO_BAR: " ++
          String.intercalate ", "
            ((jsSplitOnSpace content).filter (fun t => (enumFind ["alpha", "beta"] t).isNone)) ++
          " is not one of the allowed values: alpha, beta")⟩) ∧
    (∀ content : String,
      (jsSplitOnSpace content).filter (fun t => (enumFind ["alpha", "beta"] t).isNone) = [] →
      parseCliArguments [] [("fooBar", enumArrayArgument ["alpha", "beta"] Value.undef)]
          { envPrefix := some "APP", env := [("APP_FOO_BAR", content)] } =
        Except.ok ⟨[("fooBar",
          Value.strList ((jsSplitOnSpace content).filterMap (enumFind ["alpha", "beta"])))],
          [], none, false⟩) := by
  have hpfx : ("APP" ++ "_" : String) = "APP_" := by rfl
  have hswd : jsStartsWith "APP_DO_STUFF" "APP_" = true := by rfl
  have hdropd : String.mk ("APP_DO_STUFF".data.drop "APP_".data.length) = "DO_STUFF" := by rfl
  have hsnaked : camelToCapitalSnakeCase "doStuff" = "DO_STUFF" := by rfl
  have hswf : jsStartsWith "APP_FOO_BAR" "APP_" = true := by rfl
  have hdropf : String.mk ("APP_FOO_BAR".data.drop "APP_".data.length) = "FOO_BAR" := by rfl
  have hsnakef : camelToCapitalSnakeCase "fooBar" = "FOO_BAR" := by rfl
  have hchar : (enumArrayArgument ["alpha", "beta"] Value.undef).character = none := by rfl
  have hpres : (enumArrayArgument ["alpha", "beta"] Value.undef).present = none := by rfl
  have hdflt : (enumArrayArgument ["alpha", "beta"] Value.undef).defaultValue = Value.undef := by rfl
  refine ⟨?_, ?_, ?_⟩
  · intro content
    simp only [parseCliArguments, foldListM, parseEnvironmentVariables, envEntryStep,
      initDefault, initOptionDefaults, jsSpread, booleanArgument,
      jsGet, jsSet, jsHasOwn, List.foldl,
      hpfx, hswd, hdropd, hsnaked]
    simp [groupArguments, groupLoop, flushChunk, foldListM, jsGet, jsSet, jsHasOwn, List.foldl,
      Option.getD, Option.isNone, jsSpread]
  · intro content hinv
    rcases hsplitv : jsSplitOnSpace content with _ | ⟨t, ts⟩
    · exact absurd hsplitv (jsSplitOnSpace_ne_nil content)
    rw [hsplitv] at hinv
    have hv1 : ∀ (cur : Value) (f : Bool),
        (enumArrayArgument ["alpha", "beta"] Value.undef).validateValues cur (t :: ts) f =
          Validated.invalid
            (String.intercalate ", " ((t :: ts).filter (fun u => (enumFind ["alpha", "beta"] u).isNone)) ++
              " is not one of the allowed values: " ++ String.intercalate ", " ["alpha", "beta"]) :=
      fun cur f => enumArrayValidate_invalid ["alpha", "beta"] Value.undef cur (t :: ts) f
        (by simp) hinv
    simp only [parseCliArguments, foldListM, parseEnvironmentVariables, envEntryStep,
      initDefault, initOptionDefaults, jsSpread,
      jsGet, jsSet, jsHasOwn, List.foldl,
      hpfx, hswf, hdropf, hsnakef, hsplitv, hchar, hpres, hdflt, hv1]
    simp [hsplitv, hchar, hpres, hdflt, hv1, jsGet, jsSet, Option.getD]
    have hint : (String.intercalate ", " ["alpha", "beta"] : String) = "alpha, beta" := by rfl
    simp [hint, String.append_assoc]
  · intro content hval
    rcases hsplitv : jsSplitOnSpace content with _ | ⟨t, ts⟩
    · exact absurd hsplitv (jsSplitOnSpace_ne_nil content)
    rw [hsplitv] at hval
    have hv2 : ∀ (cur : Value) (f : Bool),
        (enumArrayArgument ["alpha", "beta"] Value.undef).validateValues cur (t :: ts) f =
          Validated.valid (Value.strList ((t :: ts).filterMap (enumFind ["alpha", "beta"]))) :=
      fun cur f => enumArrayValidate_valid ["alpha", "beta"] Value.undef cur (t :: ts) f
        (by simp) hval
    have hred : ∀ (v : Value) (f : Bool),
        (enumArrayArgument ["alpha", "beta"] Value.undef).reduceValues Value.undef v f = v := by
      intro v f; rfl
    simp only [parseCliArguments, foldListM, parseEnvironmentVariables, envEntryStep,
      initDefault, initOptionDefaults, jsSpread,
      jsGet, jsSet, jsHasOwn, List.foldl,
      hpfx, hswf, hdropf, hsnakef, hsplitv, hchar, hpres, hdflt, hv2, hred]
    simp [groupArguments, groupLoop, flushChunk, foldListM, jsGet, jsSet, jsHasOwn, List.foldl,
      Option.getD, Option.isNone, jsSpread, hsplitv, hchar, hpres, hdflt, hv2, hred]

/-- Witness for the C7 theorem at concrete contents. -/
theorem env_variables_seed_and_validate_witness :
    parseCliArguments [] [("doStuff", booleanArgument 'd')]
        { envPrefix := some "APP", env := [("APP_DO_STUFF", "whatever value")] } =
      Except.ok ⟨[("doStuff", Value.bool true)], [], none, false⟩ ∧
    parseCliArguments [] [("fooBar", enumArrayArgument ["alpha", "beta"] Value.undef)]
        { envPrefix := some "APP", env := [("APP_FOO_BAR", "alpha gamma")] } =
      Except.error ⟨2, some "Invalid values for environment APP_FOO_BAR: gamma is not one of the allowed values: alpha, beta"⟩ ∧
    parseCliArguments [] [("fooBar", enumArrayArgument ["alpha", "beta"] Value.undef)]
        { envPrefix := some "APP", env := [("APP_FOO_BAR", "alpha BETA")] } =
      Except.ok ⟨[("fooBar", Value.strList ["alpha", "beta"])], [], none, false⟩ := by
  refine ⟨env_variables_seed_and_validate.1 "whatever value", ?_, ?_⟩
  · have h := env_variables_seed_and_validate.2.1 "alpha gamma" (by decide)
    simpa using h
  · have h := env_variables_seed_and_validate.2.2 "alpha BETA" (by decide)
    simpa using h

/-- Witness for the C9 theorem at a concrete camel-case name. -/
theorem camel_conversions_same_boundaries_witness :
    camelToCapitalSnakeCase "fooBar9Baz" =
      jsToUpper (dashToUnderscore (camelToKebabCase "fooBar9Baz")) :=
  camel_conversions_same_boundaries "fooBar9Baz" (by decide)

/-- Witness for the C10 theorem at a concrete default and value list. -/
theorem array_default_is_accumulation_seed_witness :
    parseCliArguments [] [("tags", stringArrayArgument (Value.strList ["x", "y"]))]
        { args := ["--tags", "a", "b"] } =
      Except.ok ⟨[("tags", Value.strList ["x", "y", "a", "b"])], [], none, true⟩ := by
  have h := array_default_is_accumulation_seed ["x", "y"] ["a", "b"]
    (by decide) (by decide) (by decide)
  simpa using h

end CloudCopilotCli
